import Mathlib

/-!
# The applier of the replication pipeline

A shallow embedding of `plugins/mysql/applier.go` (the transaction apply engine) and of
`internal/client/driver/common/common.go` (codec and GTID-set helpers).

* SQL round-trips and channel sends are recorded, in program order, in a trace of events.
* The downstream database is an oracle deciding, from the history so far and the operation,
  whether the operation fails.
* `int64` arithmetic is integer arithmetic followed by an explicit wrap to 64 bits.
-/

namespace Dtle

/-! ## Data model -/

/-- Go `error` values, identified by their message. -/
abbrev Err := String

/-- Byte slices; an element stands for one byte. -/
abbrev Bytes := List Nat

/-- Modelled from the spec: the declaration of `ubinlog.Transaction_t` is not among the
sources. The fields are the ones `applier.go` reads (`Gtid`, `Fde`, `Query`, `EventSize`)
together with the `LastCommitted` logical clock of the data model. -/
structure Transaction where
  Gtid : String
  Fde : String
  Query : List String
  EventSize : Int
  LastCommitted : Int
deriving DecidableEq

/-- The zero value `ubinlog.Transaction_t{}`. -/
def Transaction.zero : Transaction :=
  { Gtid := "", Fde := "", Query := [], EventSize := 0, LastCommitted := 0 }

/-- Operations a worker performs on its connection and on the progress channel. -/
inductive Op where
  /-- The call `db.Exec(sql)`. -/
  | exec (sql : String)
  /-- The call `db.Begin()`. -/
  | beginTx
  /-- The call `tx.Exec(sql)`. -/
  | txExec (sql : String)
  /-- The call `tx.Commit()`. -/
  | commitTx
  /-- The send `a.cfg.GtidCh <- gtid`. -/
  | publish (gtid : String)
deriving DecidableEq

/-- An operation together with its outcome (`none` is success). -/
structure Event where
  op : Op
  err : Option Err
deriving DecidableEq

/-- The downstream server: given the history and an operation, the error it answers with. -/
abbrev DB := List Event → Op → Option Err

/-- A successful event. -/
def ok (op : Op) : Event := { op := op, err := none }

/-- Perform one SQL operation: it is appended to the trace with its outcome. -/
def issue (db : DB) (tr : List Event) (op : Op) : List Event × Option Err :=
  (tr ++ [{ op := op, err := db tr op }], db tr op)

/-- Sequencing with Go's `if err != nil { return err }`. -/
def andThen (r : List Event × Option Err) (k : List Event → List Event × Option Err) :
    List Event × Option Err :=
  match r with
  | (tr, none) => k tr
  | (tr, some e) => (tr, some e)

/-- The statement built by ``fmt.Sprintf(`SET GTID_NEXT='%v'`, lastGtid)``. -/
def setGtidNext (gtid : String) : String := "SET GTID_NEXT='" ++ gtid ++ "'"

/-- The statement releasing the GTID binding. -/
def setGtidAutomatic : String := "SET GTID_NEXT='AUTOMATIC'"

/-- The value an `int64` holds after a computation whose exact result is `x`. -/
def wrapInt64 (x : Int) : Int := (x + 2 ^ 63) % 2 ^ 64 - 2 ^ 63

/-- The range of `int64`. -/
def InInt64 (x : Int) : Prop := -(2 ^ 63) ≤ x ∧ x < 2 ^ 63

/-- The gob decoder `gob.NewDecoder(bytes.NewBuffer(data)).Decode(vPtr)`, a library call:
from the bytes and the value `vPtr` points to, the value left there and the error. -/
abbrev GobDecoder (α : Type) := Bytes → α → α × Option Err

/-! ## `Applier.applyTx` -/

namespace Mysql

/-- Lines 107-130 of `applyTx`: the body of `if lastGtid != transaction.Gtid`. -/
def applyGtid (db : DB) (tr : List Event) (lastGtid : String) : List Event × Option Err :=
  andThen (issue db tr (.exec (setGtidNext lastGtid))) fun tr =>
  andThen (issue db tr .beginTx) fun tr =>
  andThen (issue db tr .commitTx) fun tr =>
  andThen (issue db tr (.exec setGtidAutomatic)) fun tr =>
  (tr ++ [ok (.publish lastGtid)], none)

/-- Lines 137-149 of `applyTx`: the loop over the queries and the final `tx.Commit()`. -/
def applyQueries (db : DB) (tr : List Event) : List String → List Event × Option Err
  | [] => issue db tr .commitTx
  | query :: rest =>
    if query = "" then (tr, none)
    else andThen (issue db tr (.txExec query)) fun tr => applyQueries db tr rest

/-- The method `Applier.applyTx`. The locals `lastFde` and `lastGtid` are declared afresh
(as empty strings) on every call. -/
def applyTx (db : DB) (tr : List Event) (transaction : Transaction) :
    List Event × Option Err :=
  if transaction.Query.length = 0 then (tr, none)
  else
    let lastFde := ""
    let lastGtid := ""
    andThen (if lastFde ≠ transaction.Fde then issue db tr (.exec transaction.Fde)
             else (tr, none)) fun tr =>
    andThen (if lastGtid ≠ transaction.Gtid then applyGtid db tr transaction.Gtid
             else (tr, none)) fun tr =>
    andThen (issue db tr .beginTx) fun tr =>
    applyQueries db tr transaction.Query

/-- A server on which every statement succeeds. -/
def dbOk : DB := fun _ _ => none

/-- A server on which every `tx.Exec` fails and everything else succeeds. -/
def dbQueryFails : DB := fun _ op =>
  match op with
  | .txExec _ => some "query failed"
  | _ => none

/-- An event list without any publication. -/
def NoPublish (l : List Event) : Prop := ∀ e ∈ l, ∀ g, e.op ≠ Op.publish g

/-- A one-query transaction carrying a GTID. -/
def txOne : Transaction :=
  { Gtid := "3e11fa47-71ca-11e1-9e33-c80aa9429562:5", Fde := "BINLOG 'fde'",
    Query := ["INSERT INTO t VALUES (1)"], EventSize := 50, LastCommitted := 10 }

/-- A transaction whose second query is the empty string. -/
def txGap : Transaction :=
  { Gtid := "3e11fa47-71ca-11e1-9e33-c80aa9429562:8", Fde := "",
    Query := ["INSERT INTO t VALUES (1)", "", "INSERT INTO t VALUES (2)"],
    EventSize := 50, LastCommitted := 10 }

/-- A transaction without queries. -/
def txEmpty : Transaction :=
  { Gtid := "3e11fa47-71ca-11e1-9e33-c80aa9429562:6", Fde := "BINLOG 'fde'",
    Query := [], EventSize := 70, LastCommitted := 10 }

/-- The shared state of the applier the two sides touch. -/
structure Applier where
  /-- The counter `a.cfg.MemoryLimit`. -/
  memoryLimit : Int
  /-- The content of `a.txChan`, oldest first. -/
  txChan : List Transaction
  /-- The errors sent on `a.cfg.ErrCh`, oldest first. -/
  errCh : List Err
  /-- The SQL operations performed and the GTIDs sent on `a.cfg.GtidCh`. -/
  trace : List Event

/-- One iteration of the `for` loop of `startApplierWorker`: the `select` receives from
`txChan` when a transaction is there and falls to `default` otherwise. -/
def workerIteration (db : DB) (a : Applier) : Applier :=
  match a.txChan with
  | [] => a
  | tx :: rest =>
    let r := applyTx db a.trace tx
    { memoryLimit := wrapInt64 (a.memoryLimit + wrapInt64 tx.EventSize)
      txChan := rest
      errCh := match r.2 with
        | some err => a.errCh ++ [err]
        | none => a.errCh
      trace := r.1 }

/-- The function `Decode` of `applier.go`. -/
def Decode {α : Type} (gobDecode : GobDecoder α) (data : Bytes) (v : α) : α × Option Err :=
  gobDecode data v

/-- The callback `initiateStreaming` subscribes with, run on the payload `m.Data`. -/
def onMessage (gobDecode : GobDecoder Transaction) (a : Applier) (data : Bytes) : Applier :=
  let r := Decode gobDecode data Transaction.zero
  let errCh := match r.2 with
    | some err => a.errCh ++ [err]
    | none => a.errCh
  { a with errCh := errCh, txChan := a.txChan ++ [r.1] }

/-- The intake receives the messages one after the other. -/
def intake (gobDecode : GobDecoder Transaction) (a : Applier) (msgs : List Bytes) : Applier :=
  msgs.foldl (onMessage gobDecode) a

/-- A worker runs `n` iterations of its loop. -/
def drain (db : DB) : Nat → Applier → Applier
  | 0, a => a
  | n + 1, a => drain db n (workerIteration db a)

/-- The messages are received, then every queued transaction is taken and applied. -/
def runToQuiescence (gobDecode : GobDecoder Transaction) (db : DB) (a : Applier)
    (msgs : List Bytes) : Applier :=
  let a1 := intake gobDecode a msgs
  drain db a1.txChan.length a1

/-- A stand-in decoder for examples: a payload `[n]` is a one-query transaction of
`EventSize` `n`; anything else is rejected and leaves the target untouched. -/
def gobStub : GobDecoder Transaction := fun data v =>
  match data with
  | [n] => ({ v with Query := ["INSERT INTO t VALUES (1)"], EventSize := n }, none)
  | _ => (v, some "unexpected EOF")

/-- An applier with `MemoryLimit = 100` and nothing queued. -/
def applier100 : Applier := { memoryLimit := 100, txChan := [], errCh := [], trace := [] }

/-! ## The worker pool under interleaving -/

/-- What a worker holds between receiving a transaction and ending its loop iteration. -/
structure Job where
  /-- The transaction received from `txChan`. -/
  tx : Transaction
  /-- The operations of `applyTx` still to be performed. -/
  todo : List Event
  /-- The error `applyTx` returns. -/
  err : Option Err

/-- A worker goroutine `startApplierWorker(i, a.dbs[i])`. -/
structure Worker where
  /-- The operations performed so far through `a.dbs[i]`. -/
  hist : List Event
  /-- The transaction in hand, if any. -/
  job : Option Job

/-- An entry of the global trace: which worker did what for which transaction. -/
structure PoolEvent where
  worker : Nat
  tx : Transaction
  event : Event
deriving DecidableEq

/-- The applier with its `WorkerCount` workers running. -/
structure Pool where
  memoryLimit : Int
  txChan : List Transaction
  errCh : List Err
  workers : List Worker
  trace : List PoolEvent

/-- One atomic step of worker `i`: receive from `txChan` (or spin on `default`), perform the
next operation of `applyTx`, or end the iteration (report the error, release the credit).
The answer of the server to an operation on connection `i` is given by `dbs i` from the
history of that connection. -/
def stepWorker (dbs : Nat → DB) (i : Nat) (p : Pool) : Pool :=
  match p.workers[i]? with
  | none => p
  | some w =>
    match w.job with
    | none =>
      match p.txChan with
      | [] => p
      | tx :: rest =>
        let r := applyTx (dbs i) w.hist tx
        { p with
          txChan := rest
          workers := p.workers.set i
            { w with job := some { tx := tx, todo := r.1.drop w.hist.length, err := r.2 } } }
    | some j =>
      match j.todo with
      | e :: todo =>
        { p with
          workers := p.workers.set i { hist := w.hist ++ [e], job := some { j with todo := todo } }
          trace := p.trace ++ [{ worker := i, tx := j.tx, event := e }] }
      | [] =>
        { p with
          memoryLimit := wrapInt64 (p.memoryLimit + wrapInt64 j.tx.EventSize)
          errCh := match j.err with
            | some err => p.errCh ++ [err]
            | none => p.errCh
          workers := p.workers.set i { w with job := none } }

/-- A scheduling is the list of the workers that move, in order. -/
def runPool (dbs : Nat → DB) : List Nat → Pool → Pool
  | [], p => p
  | i :: sched, p => runPool dbs sched (stepWorker dbs i p)

/-- The pool right after `InitiateApplier`, with `queue` waiting in `txChan`. -/
def initPool (memoryLimit : Int) (workerCount : Nat) (queue : List Transaction) : Pool :=
  { memoryLimit := memoryLimit, txChan := queue, errCh := [],
    workers := List.replicate workerCount { hist := [], job := none }, trace := [] }

/-- Position of the first operation performed for `b`. -/
def firstEventOf (tr : List PoolEvent) (b : Transaction) : Option Nat :=
  tr.findIdx? fun e => decide (e.tx = b)

/-- Position of the first successful commit performed for `a`. -/
def firstCommitOf (tr : List PoolEvent) (a : Transaction) : Option Nat :=
  tr.findIdx? fun e => decide (e.tx = a ∧ e.event = ok .commitTx)

/-- In the trace, `a` commits strictly before `b` begins (vacuous when `b` never begins). -/
def commitsBeforeBegins (tr : List PoolEvent) (a b : Transaction) : Bool :=
  match firstEventOf tr b with
  | none => true
  | some j =>
    match firstCommitOf tr a with
    | some i => decide (i < j)
    | none => false

/-- One worker applying the queue front to back, from connection history `hist`. -/
def seqApply (db : DB) : List Event → List Transaction → List PoolEvent
  | _, [] => []
  | hist, t :: q =>
    ((applyTx db hist t).1.drop hist.length).map (fun e => { worker := 0, tx := t, event := e })
      ++ seqApply db (applyTx db hist t).1 q

/-- A transaction of commit group 10. -/
def txA : Transaction :=
  { Gtid := "3e11fa47-71ca-11e1-9e33-c80aa9429562:6", Fde := "",
    Query := ["INSERT INTO t VALUES (6)"], EventSize := 50, LastCommitted := 10 }

/-- A transaction of commit group 11. -/
def txB : Transaction :=
  { Gtid := "3e11fa47-71ca-11e1-9e33-c80aa9429562:7", Fde := "",
    Query := ["INSERT INTO t VALUES (7)"], EventSize := 50, LastCommitted := 11 }

/-- The operations worker 0 has committed to but not yet performed. -/
def pendingEvents (w : Worker) : List PoolEvent :=
  match w.job with
  | none => []
  | some j => j.todo.map fun e => { worker := 0, tx := j.tx, event := e }

/-- The history of the worker's connection once the transaction in hand is through. -/
def pendingHist (w : Worker) : List Event :=
  match w.job with
  | none => w.hist
  | some j => w.hist ++ j.todo

/-- Invariant of the one-worker pool: what was done, what is in hand and what is queued make
up the sequential application of the initial queue. -/
def SeqInv (db : DB) (total : List PoolEvent) (p : Pool) : Prop :=
  ∃ w, p.workers = [w] ∧
    p.trace ++ pendingEvents w ++ seqApply db (pendingHist w) p.txChan = total

end Mysql

namespace Common

/-! ## `common.go`: the codec -/

/-- The function `Encode`: gob-encode, then snappy-compress. The gob encoder
(`gob.NewEncoder(b).Encode(v)` followed by `b.Bytes()`) and `snappy.Encode(nil, ·)` are
library calls, taken as parameters. -/
def Encode {α : Type} (gobEncode : α → Except Err Bytes) (snappyEncode : Bytes → Bytes)
    (v : α) : Except Err Bytes :=
  match gobEncode v with
  | .error err => .error err
  | .ok b => .ok (snappyEncode b)

/-- The function `Decode`: snappy-decompress, then gob-decode into the value `vPtr` points
to. It yields the value left there and the error. -/
def Decode {α : Type} (snappyDecode : Bytes → Except Err Bytes)
    (gobDecode : GobDecoder α) (data : Bytes) (v : α) : α × Option Err :=
  match snappyDecode data with
  | .error err => (v, some err)
  | .ok msg => gobDecode msg v

/-- The error built by `fmt.Errorf` when `Unmarshal` leaves bytes unread. -/
def notAllConsumed (len n : Nat) : Err :=
  "DumpEntry.Unmarshal: not all consumed. data: " ++ toString len ++ ", consumed: "
    ++ toString n

/-- The function `DecodeDumpEntry`. `snappy.Decode(nil, ·)` is a library call and
`(*DumpEntry).Unmarshal` is declared outside the sources at hand: both are parameters.
`unmarshal msg zero` is the entry left in a fresh `DumpEntry{}`, the `uint64` count of
consumed bytes and the error. -/
def DecodeDumpEntry {δ : Type} (snappyDecode : Bytes → Except Err Bytes)
    (unmarshal : Bytes → δ → δ × Nat × Option Err) (zero : δ) (data : Bytes) :
    Except Err δ :=
  match snappyDecode data with
  | .error err => .error err
  | .ok msg =>
    match unmarshal msg zero with
    | (_, _, some err) => .error err
    | (entry, n, none) =>
      if n ≠ msg.length then .error (notAllConsumed msg.length n)
      else .ok entry

/-- A Go struct with a single field `Data []byte`; `none` is the nil slice and `some []`
the slice that is empty without being nil. -/
structure Payload where
  Data : Option (List Nat)
deriving DecidableEq

/-- A stand-in for the gob encoder on `Payload`, after the rule of `encoding/gob` that a
field holding the zero value of its type, a slice of length zero included, is not
transmitted: the nil slice and the empty slice both give the empty encoding. -/
def gobEncodePayload : Payload → Except Err Bytes := fun v =>
  match v.Data with
  | none => .ok []
  | some l => .ok l

/-- A stand-in for the gob decoder on `Payload`: a field that was not transmitted is left
as it is in the target. -/
def gobDecodePayload : GobDecoder Payload := fun data v =>
  match data with
  | [] => (v, none)
  | b :: rest => ({ Data := some (b :: rest) }, none)

/-- A stand-in for `snappy.Encode`: the length, then the bytes. -/
def snappyEncodeStub : Bytes → Bytes := fun b => b.length :: b

/-- A stand-in for `snappy.Decode`: checks the length and strips it. -/
def snappyDecodeStub : Bytes → Except Err Bytes := fun data =>
  match data with
  | [] => .error "snappy: corrupt input"
  | n :: b => if n = b.length then .ok b else .error "snappy: corrupt input"

/-! ## `common.go`: the GTID set -/

/-- The 128-bit source identifier `uuid.UUID`. -/
abbrev UUID := Nat

/-- The half-open interval `[Start, Stop)` of `mysql.Interval`; both ends are `int64`. -/
structure Interval where
  Start : Int
  Stop : Int
deriving DecidableEq

/-- The order `IntervalSlice` is sorted by: by `Start`, then by `Stop`. -/
def Interval.le (a b : Interval) : Prop :=
  a.Start < b.Start ∨ (a.Start = b.Start ∧ a.Stop ≤ b.Stop)

instance : DecidableRel Interval.le := fun a b => by
  unfold Interval.le; exact inferInstance

/-- Modelled from the spec: the GTID-set library is not among the sources. Coalescing of a
sorted interval list ("coalescing with adjacent intervals"): an interval starting at or
before the end of the last one is merged into it. -/
def coalesceFrom (last : Interval) : List Interval → List Interval
  | [] => [last]
  | b :: rest =>
    if b.Start > last.Stop then last :: coalesceFrom b rest
    else coalesceFrom { Start := last.Start, Stop := max last.Stop b.Stop } rest

/-- Modelled from the spec: the GTID-set library is not among the sources. Normal form of
an interval list: "intervals per uuid sorted ascending and non-overlapping". -/
def normalize (l : List Interval) : List Interval :=
  match l.insertionSort Interval.le with
  | [] => []
  | a :: rest => coalesceFrom a rest

/-- Modelled from the spec: the GTID-set library is not among the sources. A GTID set is
"a mapping uuid → ordered set of half-open intervals [start, stop) over gno". -/
abbrev MysqlGTIDSet := UUID → Option (List Interval)

/-- The intervals of one uuid, `mysql.UUIDSet`. -/
structure UUIDSet where
  SID : UUID
  Intervals : List Interval

/-- Modelled from the spec: the GTID-set library is not among the sources. The constructor
`mysql.NewUUIDSet` keeps the intervals in normal form. -/
def NewUUIDSet (sid : UUID) (intervals : List Interval) : UUIDSet :=
  { SID := sid, Intervals := normalize intervals }

/-- Modelled from the spec: the GTID-set library is not among the sources. The method
`AddSet` merges the intervals of one uuid into the set ("Mergeable"; "adds the half-open
interval, coalescing with adjacent intervals"). -/
def AddSet (s : MysqlGTIDSet) (set : UUIDSet) : MysqlGTIDSet := fun sid =>
  if sid = set.SID then
    match s set.SID with
    | some intervals => some (normalize (intervals ++ set.Intervals))
    | none => some set.Intervals
  else s sid

/-- Membership of the GTID `(sid, gno)` in a set. -/
def contains (s : MysqlGTIDSet) (sid : UUID) (gno : Int) : Bool :=
  match s sid with
  | none => false
  | some intervals => intervals.any fun iv => decide (iv.Start ≤ gno ∧ gno < iv.Stop)

/-- The function `UpdateGtidSet`; `txGno + 1` is an `int64` addition. -/
def UpdateGtidSet (gtidSet : MysqlGTIDSet) (sid : UUID) (txGno : Int) : MysqlGTIDSet :=
  AddSet gtidSet (NewUUIDSet sid [{ Start := txGno, Stop := wrapInt64 (txGno + 1) }])

/-- The empty GTID set. -/
def emptySet : MysqlGTIDSet := fun _ => none

/-- A set holding `7:1-4` and `7:6`. -/
def sampleSet : MysqlGTIDSet := fun sid =>
  if sid = 7 then some [{ Start := 1, Stop := 5 }, { Start := 6, Stop := 7 }] else none

/-- Some interval of the list holds `n`. -/
def Covers (l : List Interval) (n : Int) : Prop :=
  ∃ iv ∈ l, iv.Start ≤ n ∧ n < iv.Stop

instance : IsTotal Interval Interval.le where
  total a b := by unfold Interval.le; omega

instance : IsTrans Interval Interval.le where
  trans a b c := by unfold Interval.le; omega

end Common

/-! ## Arithmetic and sequencing lemmas -/

/-- Wrapping leaves an in-range value alone. -/
theorem wrapInt64_of_inInt64 {x : Int} (h : InInt64 x) : wrapInt64 x = x := by
  unfold InInt64 at h
  unfold wrapInt64
  have h1 : (x + 2 ^ 63) % 2 ^ 64 = x + 2 ^ 63 := by
    apply Int.emod_eq_of_lt <;> omega
  omega

/-- After a success the continuation runs. -/
theorem andThen_ok (tr : List Event) (k : List Event → List Event × Option Err) :
    andThen (tr, none) k = k tr := rfl

/-- After a failure the error is returned at once. -/
theorem andThen_err (tr : List Event) (e : Err) (k : List Event → List Event × Option Err) :
    andThen (tr, some e) k = (tr, some e) := rfl

/-- An operation the server accepts. -/
theorem issue_none {db : DB} {tr : List Event} {op : Op} (h : db tr op = none) :
    issue db tr op = (tr ++ [ok op], none) := by
  simp [issue, h, ok]

/-- An operation the server rejects. -/
theorem issue_some {db : DB} {tr : List Event} {op : Op} {e : Err} (h : db tr op = some e) :
    issue db tr op = (tr ++ [{ op := op, err := some e }], some e) := by
  simp [issue, h]

namespace Mysql

/-! ## `applyTx` when every statement it issues succeeds -/

/-- The empty list holds no publication. -/
theorem noPublish_nil : NoPublish [] := by
  intro e he; simp at he

/-- Two lists without publication make one. -/
theorem noPublish_append {l₁ l₂ : List Event} (h₁ : NoPublish l₁) (h₂ : NoPublish l₂) :
    NoPublish (l₁ ++ l₂) := by
  intro e he g
  rcases List.mem_append.mp he with h | h
  · exact h₁ e h g
  · exact h₂ e h g

/-- A single operation that is not a publication. -/
theorem noPublish_single (op : Op) (r : Option Err) (h : ∀ g, op ≠ Op.publish g) :
    NoPublish [{ op := op, err := r }] := by
  intro e he g
  simp at he
  subst he
  exact h g

/-- The query loop only appends to the trace, and never a publication. -/
theorem applyQueries_noPublish (db : DB) (qs : List String) :
    ∀ tr : List Event, ∃ new, (applyQueries db tr qs).1 = tr ++ new ∧ NoPublish new := by
  induction qs with
  | nil =>
    intro tr
    exact ⟨[{ op := .commitTx, err := db tr .commitTx }], rfl,
      noPublish_single _ _ (by intro g; simp)⟩
  | cons q rest ih =>
    intro tr
    by_cases hq : q = ""
    · exact ⟨[], by simp [applyQueries, hq], noPublish_nil⟩
    · rcases hdb : db tr (.txExec q) with _ | e
      · obtain ⟨new, hnew, hnp⟩ := ih (tr ++ [{ op := .txExec q, err := none }])
        refine ⟨{ op := .txExec q, err := none } :: new, ?_, ?_⟩
        · simp [applyQueries, hq, issue, hdb, andThen, hnew]
        · exact noPublish_append (noPublish_single _ _ (by intro g; simp)) hnp
      · exact ⟨[{ op := .txExec q, err := some e }], by
          simp [applyQueries, hq, issue, hdb, andThen],
          noPublish_single _ _ (by intro g; simp)⟩

/-- Lines 132-149 (begin, queries, commit) only append, and never a publication. -/
theorem applyTail_noPublish (db : DB) (qs : List String) (tr : List Event) :
    ∃ new, (andThen (issue db tr .beginTx) fun tr => applyQueries db tr qs).1 = tr ++ new
      ∧ NoPublish new := by
  rcases hdb : db tr .beginTx with _ | e
  · obtain ⟨new, hnew, hnp⟩ :=
      applyQueries_noPublish db qs (tr ++ [{ op := .beginTx, err := none }])
    refine ⟨{ op := .beginTx, err := none } :: new, ?_, ?_⟩
    · simp [issue, hdb, andThen, hnew]
    · exact noPublish_append (noPublish_single _ _ (by intro g; simp)) hnp
  · exact ⟨[{ op := .beginTx, err := some e }], by simp [issue, hdb, andThen],
      noPublish_single _ _ (by intro g; simp)⟩

/-- The GTID block either fails without publishing or performs its five steps. -/
theorem applyGtid_shape (db : DB) (tr : List Event) (g : String) :
    (∃ new e, applyGtid db tr g = (tr ++ new, some e) ∧ NoPublish new) ∨
    applyGtid db tr g = (tr ++ [ok (.exec (setGtidNext g)), ok .beginTx, ok .commitTx,
      ok (.exec setGtidAutomatic), ok (.publish g)], none) := by
  rcases h1 : db tr (.exec (setGtidNext g)) with _ | e
  · rcases h2 : db (tr ++ [ok (.exec (setGtidNext g))]) .beginTx with _ | e
    · rcases h3 : db (tr ++ [ok (.exec (setGtidNext g))] ++ [ok .beginTx]) .commitTx with _ | e
      · rcases h4 : db (tr ++ [ok (.exec (setGtidNext g))] ++ [ok .beginTx] ++ [ok .commitTx])
            (.exec setGtidAutomatic) with _ | e
        · right
          simp [ok] at h2 h3 h4
          simp [applyGtid, issue, andThen, h1, h2, h3, h4, ok]
        · left
          simp [ok] at h2 h3 h4
          refine ⟨[ok (.exec (setGtidNext g)), ok .beginTx, ok .commitTx,
            { op := .exec setGtidAutomatic, err := some e }], e, ?_, ?_⟩
          · simp [applyGtid, issue, andThen, h1, h2, h3, h4, ok]
          · intro x hx g1; simp [ok] at hx; rcases hx with h | h | h | h <;> simp [h]
      · left
        simp [ok] at h2 h3
        refine ⟨[ok (.exec (setGtidNext g)), ok .beginTx,
            { op := .commitTx, err := some e }], e, ?_, ?_⟩
        · simp [applyGtid, issue, andThen, h1, h2, h3, ok]
        · intro x hx g1; simp [ok] at hx; rcases hx with h | h | h <;> simp [h]
    · left
      simp [ok] at h2
      refine ⟨[ok (.exec (setGtidNext g)), { op := .beginTx, err := some e }], e, ?_, ?_⟩
      · simp [applyGtid, issue, andThen, h1, h2, ok]
      · intro x hx g1; simp [ok] at hx; rcases hx with h | h <;> simp [h]
  · left
    refine ⟨[{ op := .exec (setGtidNext g), err := some e }], e, ?_, ?_⟩
    · simp [applyGtid, issue, andThen, h1]
    · intro x hx g1; simp at hx; simp [hx]

/-- The shape of what one call of `applyTx` appends to the trace. -/
theorem applyTx_shape (db : DB) (tr : List Event) (t : Transaction) :
    ∃ new, (applyTx db tr t).1 = tr ++ new ∧
      (NoPublish new ∨
        ∃ pre post,
          new = pre ++ [ok (.exec (setGtidNext t.Gtid)), ok .beginTx, ok .commitTx,
                        ok (.exec setGtidAutomatic), ok (.publish t.Gtid)] ++ post
          ∧ (pre = [] ∨ pre = [ok (.exec t.Fde)]) ∧ NoPublish post) := by
  unfold applyTx
  by_cases hlen : t.Query.length = 0
  · exact ⟨[], by simp [hlen], Or.inl noPublish_nil⟩
  · rw [if_neg hlen]
    have key : ∀ tr1 : List Event, ∃ new,
        (andThen (if "" ≠ t.Gtid then applyGtid db tr1 t.Gtid else (tr1, none)) fun tr =>
          andThen (issue db tr .beginTx) fun tr => applyQueries db tr t.Query).1 = tr1 ++ new ∧
        (NoPublish new ∨ ∃ post,
          new = [ok (.exec (setGtidNext t.Gtid)), ok .beginTx, ok .commitTx,
                 ok (.exec setGtidAutomatic), ok (.publish t.Gtid)] ++ post ∧ NoPublish post) := by
      intro tr1
      by_cases hg : "" ≠ t.Gtid
      · rw [if_pos hg]
        rcases applyGtid_shape db tr1 t.Gtid with ⟨new, e, h, hnp⟩ | h
        · exact ⟨new, by simp [h, andThen], Or.inl hnp⟩
        · obtain ⟨post, hpost, hnp⟩ := applyTail_noPublish db t.Query
            (tr1 ++ [ok (.exec (setGtidNext t.Gtid)), ok .beginTx, ok .commitTx,
              ok (.exec setGtidAutomatic), ok (.publish t.Gtid)])
          refine ⟨_ ++ post, ?_, Or.inr ⟨post, rfl, hnp⟩⟩
          rw [h, andThen_ok, hpost]
          simp
      · rw [if_neg hg]
        obtain ⟨post, hpost, hnp⟩ := applyTail_noPublish db t.Query tr1
        exact ⟨post, by rw [andThen_ok, hpost], Or.inl hnp⟩
    by_cases hf : "" ≠ t.Fde
    · simp only [if_pos hf]
      rcases hdb : db tr (.exec t.Fde) with _ | e
      · obtain ⟨new, hnew, hsh⟩ := key (tr ++ [ok (.exec t.Fde)])
        refine ⟨ok (.exec t.Fde) :: new, ?_, ?_⟩
        · rw [issue_none hdb, andThen_ok, hnew]
          simp
        · rcases hsh with hnp | ⟨post, hpost, hnp⟩
          · left
            have hfde : NoPublish [ok (.exec t.Fde)] :=
              noPublish_single _ _ (by intro g; simp)
            exact noPublish_append hfde hnp
          · right
            exact ⟨[ok (.exec t.Fde)], post, by simp [hpost], Or.inr rfl, hnp⟩
      · exact ⟨[{ op := .exec t.Fde, err := some e }], by
          rw [issue_some hdb, andThen_err],
          Or.inl (noPublish_single _ _ (by intro g; simp))⟩
    · simp only [if_neg hf, andThen_ok]
      obtain ⟨new, hnew, hsh⟩ := key tr
      refine ⟨new, hnew, ?_⟩
      rcases hsh with hnp | ⟨post, hpost, hnp⟩
      · exact Or.inl hnp
      · exact Or.inr ⟨[], post, by simp [hpost], Or.inl rfl, hnp⟩

/-- A call of `applyTx` only appends to the trace. -/
theorem applyTx_extends (db : DB) (tr : List Event) (t : Transaction) :
    ∃ new, (applyTx db tr t).1 = tr ++ new := by
  obtain ⟨new, h, _⟩ := applyTx_shape db tr t
  exact ⟨new, h⟩

/-- C2 (amended): for every transaction and every outcome of the SQL statements, what
`applyTx` appends to the trace either holds no publication at all, or holds exactly one, of
`t.Gtid`, standing right after the successful `SET GTID_NEXT='<gtid>'`, begin, commit and
`SET GTID_NEXT='AUTOMATIC'`, preceded by nothing but a successful FDE: the GTID is published
after the commit of the empty GTID-bound transaction and before any query is executed. -/
theorem applyTx_publish_after_gtid_commit (db : DB) (tr : List Event) (t : Transaction) :
    ∃ new, (applyTx db tr t).1 = tr ++ new ∧
      (NoPublish new ∨
        ∃ pre post,
          new = pre ++ [ok (.exec (setGtidNext t.Gtid)), ok .beginTx, ok .commitTx,
                        ok (.exec setGtidAutomatic), ok (.publish t.Gtid)] ++ post
          ∧ (pre = [] ∨ pre = [ok (.exec t.Fde)]) ∧ NoPublish post) :=
  applyTx_shape db tr t

/-- C2 (counterexample): on a server where the query fails, `applyTx` returns the error and
the GTID of the transaction has nevertheless been published. -/
theorem applyTx_publishes_before_failed_query :
    (applyTx dbQueryFails [] txOne).2 = some "query failed"
      ∧ ok (.publish txOne.Gtid) ∈ (applyTx dbQueryFails [] txOne).1 := by
  simp [applyTx, txOne, applyGtid, applyQueries, issue, andThen, dbQueryFails, ok]

/-- C3 (failing input): with the empty string as second query and every statement
succeeding, `applyTx` returns no error after executing the first query only, and the
transaction holding it is never committed. -/
theorem applyTx_empty_query_skips_commit :
    applyTx dbOk [] txGap =
      ([ok (.exec "SET GTID_NEXT='3e11fa47-71ca-11e1-9e33-c80aa9429562:8'"),
        ok .beginTx, ok .commitTx, ok (.exec "SET GTID_NEXT='AUTOMATIC'"),
        ok (.publish "3e11fa47-71ca-11e1-9e33-c80aa9429562:8"),
        ok .beginTx, ok (.txExec "INSERT INTO t VALUES (1)")], none) := by
  simp [applyTx, txGap, applyGtid, applyQueries, issue, andThen, dbOk, ok, setGtidNext,
    setGtidAutomatic]

/-! ## The worker iteration and the intake callback -/

/-- C9: a transaction with an empty query list is skipped. `applyTx` leaves the trace as it
is (no SQL statement, no publication) and returns no error; the worker iteration that took
it from the queue reports no error and adds its `EventSize` to the credit counter (an
`int64` addition, which is the exact sum when that sum is in range). -/
theorem workerIteration_empty_queries (db : DB) (a : Applier) (t : Transaction)
    (rest : List Transaction) (hchan : a.txChan = t :: rest) (hq : t.Query = []) :
    applyTx db a.trace t = (a.trace, none)
      ∧ workerIteration db a =
          { memoryLimit := wrapInt64 (a.memoryLimit + wrapInt64 t.EventSize)
            txChan := rest, errCh := a.errCh, trace := a.trace }
      ∧ (InInt64 t.EventSize → InInt64 (a.memoryLimit + t.EventSize) →
          (workerIteration db a).memoryLimit = a.memoryLimit + t.EventSize) := by
  have happ : applyTx db a.trace t = (a.trace, none) := by
    simp [applyTx, hq]
  have hw : workerIteration db a =
      { memoryLimit := wrapInt64 (a.memoryLimit + wrapInt64 t.EventSize)
        txChan := rest, errCh := a.errCh, trace := a.trace } := by
    simp [workerIteration, hchan, happ]
  refine ⟨happ, hw, ?_⟩
  intro h1 h2
  rw [hw]
  simp only
  rw [wrapInt64_of_inInt64 h1, wrapInt64_of_inInt64 h2]

/-- C9 (witness): a worker takes a transaction without queries, of `EventSize` 70, while the
counter is 100. -/
theorem workerIteration_empty_queries_witness :
    applyTx dbOk [] txEmpty = ([], none)
      ∧ workerIteration dbOk { applier100 with txChan := [txEmpty, txOne] } =
          { memoryLimit := wrapInt64 (100 + wrapInt64 70)
            txChan := [txOne], errCh := [], trace := [] }
      ∧ (InInt64 70 → InInt64 (100 + 70) →
          (workerIteration dbOk { applier100 with txChan := [txEmpty, txOne] }).memoryLimit
            = 100 + 70) :=
  workerIteration_empty_queries dbOk { applier100 with txChan := [txEmpty, txOne] } txEmpty
    [txOne] rfl rfl

/-- C8 (failing input): when the payload fails to decode, the callback sends the error on
the error channel and still hands the transaction value the decoder left behind to the
dispatch queue. -/
theorem onMessage_decode_error (gobDecode : GobDecoder Transaction) (a : Applier)
    (data : Bytes) (v : Transaction) (e : Err)
    (hdec : Decode gobDecode data Transaction.zero = (v, some e)) :
    onMessage gobDecode a data =
      { a with errCh := a.errCh ++ [e], txChan := a.txChan ++ [v] } := by
  simp [onMessage, hdec]

/-- C8 (witness): an empty payload is rejected by the decoder, and the zero transaction is
queued all the same. -/
theorem onMessage_decode_error_witness :
    Decode gobStub [] Transaction.zero = (Transaction.zero, some "unexpected EOF")
      ∧ onMessage gobStub applier100 [] =
          { applier100 with errCh := ["unexpected EOF"], txChan := [Transaction.zero] } :=
  ⟨rfl, onMessage_decode_error gobStub applier100 [] Transaction.zero "unexpected EOF" rfl⟩

/-- When the payload decodes, the callback sends no error and queues the decoded
transaction. -/
theorem onMessage_decode_success (gobDecode : GobDecoder Transaction) (a : Applier)
    (data : Bytes) (v : Transaction)
    (hdec : Decode gobDecode data Transaction.zero = (v, none)) :
    onMessage gobDecode a data = { a with txChan := a.txChan ++ [v] } := by
  simp [onMessage, hdec]

/-- The callback leaves the credit counter alone. -/
theorem onMessage_memoryLimit (gobDecode : GobDecoder Transaction) (a : Applier)
    (data : Bytes) : (onMessage gobDecode a data).memoryLimit = a.memoryLimit := rfl

/-- The intake leaves the credit counter alone, whatever it receives. -/
theorem intake_memoryLimit (gobDecode : GobDecoder Transaction) (msgs : List Bytes) :
    ∀ a : Applier, (intake gobDecode a msgs).memoryLimit = a.memoryLimit := by
  induction msgs with
  | nil => intro a; rfl
  | cons m rest ih =>
    intro a
    simp only [intake, List.foldl_cons]
    exact (ih (onMessage gobDecode a m)).trans (onMessage_memoryLimit gobDecode a m)

/-- A worker iteration that receives a transaction adds its `EventSize` to the counter. -/
theorem workerIteration_memoryLimit (db : DB) (a : Applier) (tx : Transaction)
    (rest : List Transaction) (hchan : a.txChan = tx :: rest) :
    (workerIteration db a).memoryLimit = wrapInt64 (a.memoryLimit + wrapInt64 tx.EventSize) := by
  simp [workerIteration, hchan]

/-- C7 (failing input): one message carrying a transaction of `EventSize` 50 is received
and applied while the counter is 100. The intake leaves the counter at 100, as it does for
every sequence of messages, and at quiescence (queue empty, no error) the counter is 150:
the worker added 50 that nobody had subtracted. -/
theorem credit_not_conserved :
    (∀ (gobDecode : GobDecoder Transaction) (a : Applier) (msgs : List Bytes),
        (intake gobDecode a msgs).memoryLimit = a.memoryLimit)
      ∧ (intake gobStub applier100 [[50]]).txChan =
          [{ Transaction.zero with Query := ["INSERT INTO t VALUES (1)"], EventSize := 50 }]
      ∧ (runToQuiescence gobStub dbOk applier100 [[50]]).memoryLimit = 150
      ∧ (runToQuiescence gobStub dbOk applier100 [[50]]).txChan = []
      ∧ (runToQuiescence gobStub dbOk applier100 [[50]]).errCh = [] := by
  refine ⟨fun gobDecode a msgs => intake_memoryLimit gobDecode msgs a, ?_, ?_, ?_, ?_⟩ <;>
    simp [runToQuiescence, intake, onMessage, Decode, gobStub, applier100, drain,
      workerIteration, applyTx, applyQueries, issue, andThen, dbOk, Transaction.zero,
      wrapInt64]

/-! ## The pool -/

/-- A step of any worker keeps the invariant of the one-worker pool. -/
theorem stepWorker_seqInv (dbs : Nat → DB) (total : List PoolEvent) (i : Nat) (p : Pool)
    (h : SeqInv (dbs 0) total p) : SeqInv (dbs 0) total (stepWorker dbs i p) := by
  obtain ⟨w, hw, htot⟩ := h
  cases i with
  | succ n =>
    have : stepWorker dbs (n + 1) p = p := by simp [stepWorker, hw]
    rw [this]; exact ⟨w, hw, htot⟩
  | zero =>
    rcases hj : w.job with _ | j
    · rcases hq : p.txChan with _ | ⟨tx, rest⟩
      · have : stepWorker dbs 0 p = p := by simp [stepWorker, hw, hj, hq]
        rw [this]; exact ⟨w, hw, htot⟩
      · obtain ⟨new, hnew⟩ := applyTx_extends (dbs 0) w.hist tx
        refine ⟨{ w with job := some ⟨tx, (applyTx (dbs 0) w.hist tx).1.drop w.hist.length,
          (applyTx (dbs 0) w.hist tx).2⟩ }, ?_, ?_⟩
        · simp [stepWorker, hw, hj, hq]
        · rw [← htot]
          simp [stepWorker, hw, hj, hq, pendingEvents, pendingHist, seqApply, hnew]
    · rcases ht : j.todo with _ | ⟨e, todo⟩
      · refine ⟨{ w with job := none }, ?_, ?_⟩
        · simp [stepWorker, hw, hj, ht]
        · rw [← htot]
          simp [stepWorker, hw, hj, ht, pendingEvents, pendingHist]
      · refine ⟨{ hist := w.hist ++ [e], job := some { j with todo := todo } }, ?_, ?_⟩
        · simp [stepWorker, hw, hj, ht]
        · rw [← htot]
          simp [stepWorker, hw, hj, ht, pendingEvents, pendingHist]

/-- A whole scheduling keeps the invariant of the one-worker pool. -/
theorem runPool_seqInv (dbs : Nat → DB) (total : List PoolEvent) (sched : List Nat) :
    ∀ p : Pool, SeqInv (dbs 0) total p → SeqInv (dbs 0) total (runPool dbs sched p) := by
  induction sched with
  | nil => intro p h; exact h
  | cons i sched ih => intro p h; exact ih _ (stepWorker_seqInv dbs total i p h)

/-- C10 (amended): with a single worker, for every scheduling, every initial queue and every
behaviour of the server, the operations performed so far are an initial segment of applying
the queued transactions one after the other in queue order: a transaction handed to the
queue earlier has all its operations, commits included, performed before a later one
begins. `LastCommitted` plays no part. -/
theorem single_worker_applies_in_queue_order (dbs : Nat → DB) (memoryLimit : Int)
    (queue : List Transaction) (sched : List Nat) :
    (runPool dbs sched (initPool memoryLimit 1 queue)).trace <+: seqApply (dbs 0) [] queue := by
  have h0 : SeqInv (dbs 0) (seqApply (dbs 0) [] queue) (initPool memoryLimit 1 queue) :=
    ⟨{ hist := [], job := none }, by simp [initPool], by
      simp [initPool, pendingEvents, pendingHist]⟩
  obtain ⟨w, _, htot⟩ := runPool_seqInv dbs _ sched _ h0
  exact ⟨pendingEvents w ++ seqApply (dbs 0) (pendingHist w)
    (runPool dbs sched (initPool memoryLimit 1 queue)).txChan, by rw [← htot]; simp⟩

/-- C10 (counterexample): `txA` is of commit group 10 and `txB` of group 11. With two workers
and `txA` queued first, there is a scheduling in which `txB` is applied entirely before the
first operation of `txA`; with one worker and `txB` queued first, `txB` begins before `txA`
commits as well. -/
theorem workers_do_not_order_commit_groups :
    txA.LastCommitted < txB.LastCommitted
      ∧ (¬ ∀ sched : List Nat, commitsBeforeBegins
          (runPool (fun _ => dbOk) sched (initPool 100 2 [txA, txB])).trace txA txB = true)
      ∧ (¬ ∀ sched : List Nat, commitsBeforeBegins
          (runPool (fun _ => dbOk) sched (initPool 100 1 [txB, txA])).trace txA txB = true) := by
  refine ⟨by decide, fun h => ?_, fun h => ?_⟩
  · exact absurd (h [0, 1, 1, 1, 1, 1, 1, 1, 1, 1, 1, 0, 0, 0, 0, 0, 0, 0, 0, 0]) (by decide)
  · exact absurd (h [0, 0, 0, 0, 0, 0, 0, 0, 0, 0, 0, 0, 0, 0, 0, 0, 0, 0, 0, 0]) (by decide)

end Mysql

namespace Common

/-! ## The codec -/

/-- C4 (amended): when snappy decompression undoes snappy compression, for every value the
gob encoder accepts `Encode` succeeds, and `Decode` applied to its result returns exactly
what the gob decoder returns on the gob encoding of the value: the round trip through the
codec holds for a value exactly when gob itself gives that value back. -/
theorem encode_decode_through_gob {α : Type} (gobEncode : α → Except Err Bytes)
    (gobDecode : GobDecoder α) (snappyEncode : Bytes → Bytes)
    (snappyDecode : Bytes → Except Err Bytes)
    (hsnappy : ∀ b, snappyDecode (snappyEncode b) = .ok b)
    (t : α) (b : Bytes) (hvalid : gobEncode t = .ok b) (v0 : α) :
    Encode gobEncode snappyEncode t = .ok (snappyEncode b)
      ∧ Decode snappyDecode gobDecode (snappyEncode b) v0 = gobDecode b v0
      ∧ (Decode snappyDecode gobDecode (snappyEncode b) v0 = (t, none)
          ↔ gobDecode b v0 = (t, none)) := by
  have hdec : Decode snappyDecode gobDecode (snappyEncode b) v0 = gobDecode b v0 := by
    simp [Decode, hsnappy]
  refine ⟨?_, hdec, ?_⟩
  · simp [Encode, hvalid]
  · rw [hdec]

/-- C4 (witness): a payload holding three bytes goes through the stand-in codecs. -/
theorem encode_decode_through_gob_witness :
    Encode gobEncodePayload snappyEncodeStub { Data := some [1, 2, 3] }
        = .ok (snappyEncodeStub [1, 2, 3])
      ∧ Decode snappyDecodeStub gobDecodePayload (snappyEncodeStub [1, 2, 3]) { Data := none }
          = gobDecodePayload [1, 2, 3] { Data := none }
      ∧ (Decode snappyDecodeStub gobDecodePayload (snappyEncodeStub [1, 2, 3]) { Data := none }
            = ({ Data := some [1, 2, 3] }, none)
          ↔ gobDecodePayload [1, 2, 3] { Data := none } = ({ Data := some [1, 2, 3] }, none)) :=
  encode_decode_through_gob gobEncodePayload gobDecodePayload snappyEncodeStub
    snappyDecodeStub (fun b => by simp [snappyDecodeStub, snappyEncodeStub])
    { Data := some [1, 2, 3] } [1, 2, 3] rfl { Data := none }

/-- C4 (counterexample): a payload whose slice is empty without being nil is accepted by
the encoder, `Encode` succeeds, `Decode` of the result into a fresh value succeeds, and the
value it yields holds the nil slice: it is not the value that was encoded. -/
theorem encode_decode_loses_empty_slice :
    Encode gobEncodePayload snappyEncodeStub { Data := some [] } = .ok [0]
      ∧ Decode snappyDecodeStub gobDecodePayload [0] { Data := none } = ({ Data := none }, none)
      ∧ ({ Data := none } : Payload) ≠ { Data := some [] } := by
  refine ⟨rfl, rfl, ?_⟩
  intro h
  cases h

/-- C5: `DecodeDumpEntry` returns an entry exactly when decompression succeeds, `Unmarshal`
succeeds on the decompressed payload and reports as consumed the length of that payload;
a decompression error and an `Unmarshal` error are returned as they are, and a consumed
count different from the payload length gives the "not all consumed" error. In each of
these three cases no entry is returned. -/
theorem decodeDumpEntry_ok_iff {δ : Type} (snappyDecode : Bytes → Except Err Bytes)
    (unmarshal : Bytes → δ → δ × Nat × Option Err) (zero : δ) (data : Bytes) :
    (∀ entry, DecodeDumpEntry snappyDecode unmarshal zero data = .ok entry ↔
        ∃ msg, snappyDecode data = .ok msg ∧ unmarshal msg zero = (entry, msg.length, none))
      ∧ (∀ err, snappyDecode data = .error err →
          DecodeDumpEntry snappyDecode unmarshal zero data = .error err)
      ∧ (∀ msg entry n err, snappyDecode data = .ok msg →
          unmarshal msg zero = (entry, n, some err) →
          DecodeDumpEntry snappyDecode unmarshal zero data = .error err)
      ∧ (∀ msg entry n, snappyDecode data = .ok msg →
          unmarshal msg zero = (entry, n, none) → n ≠ msg.length →
          DecodeDumpEntry snappyDecode unmarshal zero data
            = .error (notAllConsumed msg.length n)) := by
  refine ⟨fun entry => ?_, fun err hs => ?_, fun msg entry n err hs hu => ?_,
    fun msg entry n hs hu hn => ?_⟩
  · unfold DecodeDumpEntry
    rcases hs : snappyDecode data with err | msg
    · simp
    · simp only []
      rcases hu : unmarshal msg zero with ⟨e, n, _ | err⟩
      · by_cases hn : n = msg.length
        · subst hn; simp [hu]
        · simp only [ne_eq, hn, not_false_eq_true, if_true]
          constructor
          · intro h; cases h
          · rintro ⟨m, hm, hm2⟩
            cases hm
            rw [hu] at hm2
            simp only [Prod.mk.injEq] at hm2
            exact absurd hm2.2.1 hn
      · simp only []
        constructor
        · intro h; cases h
        · rintro ⟨m, hm, hm2⟩
          cases hm
          rw [hu] at hm2
          simp at hm2
  · simp [DecodeDumpEntry, hs]
  · simp [DecodeDumpEntry, hs, hu]
  · simp [DecodeDumpEntry, hs, hu, hn]

/-! ## The GTID set -/

/-- Coverage by a list, head first. -/
theorem covers_cons (a : Interval) (l : List Interval) (n : Int) :
    Covers (a :: l) n ↔ (a.Start ≤ n ∧ n < a.Stop) ∨ Covers l n := by
  simp [Covers]

/-- Coverage by a concatenation. -/
theorem covers_append (l₁ l₂ : List Interval) (n : Int) :
    Covers (l₁ ++ l₂) n ↔ Covers l₁ n ∨ Covers l₂ n := by
  simp only [Covers, List.mem_append]
  constructor
  · rintro ⟨iv, h | h, hn⟩
    · exact Or.inl ⟨iv, h, hn⟩
    · exact Or.inr ⟨iv, h, hn⟩
  · rintro (⟨iv, h, hn⟩ | ⟨iv, h, hn⟩)
    · exact ⟨iv, Or.inl h, hn⟩
    · exact ⟨iv, Or.inr h, hn⟩

/-- Coverage does not depend on the order of the intervals. -/
theorem covers_perm {l₁ l₂ : List Interval} (h : l₁.Perm l₂) (n : Int) :
    Covers l₁ n ↔ Covers l₂ n := by
  simp only [Covers]
  constructor
  · rintro ⟨iv, hm, hn⟩; exact ⟨iv, h.mem_iff.mp hm, hn⟩
  · rintro ⟨iv, hm, hn⟩; exact ⟨iv, h.mem_iff.mpr hm, hn⟩

/-- Coalescing a list sorted by `Start` keeps the covered values. -/
theorem coalesceFrom_covers (n : Int) (l : List Interval) :
    ∀ last : Interval, (∀ b ∈ l, last.Start ≤ b.Start) →
      l.Pairwise (fun a b => a.Start ≤ b.Start) →
      (Covers (coalesceFrom last l) n ↔ (last.Start ≤ n ∧ n < last.Stop) ∨ Covers l n) := by
  induction l with
  | nil =>
    intro last _ _
    simp [coalesceFrom, Covers]
  | cons b rest ih =>
    intro last hlast hsorted
    have hb : last.Start ≤ b.Start := hlast b (List.mem_cons_self _ _)
    rw [List.pairwise_cons] at hsorted
    unfold coalesceFrom
    by_cases hgap : b.Start > last.Stop
    · rw [if_pos hgap, covers_cons, ih b hsorted.1 hsorted.2, covers_cons]
    · rw [if_neg hgap, ih { Start := last.Start, Stop := max last.Stop b.Stop }
        (fun c hc => hlast c (List.mem_cons_of_mem _ hc)) hsorted.2, covers_cons]
      simp only []
      have hm : (last.Start ≤ n ∧ n < max last.Stop b.Stop) ↔
          ((last.Start ≤ n ∧ n < last.Stop) ∨ (b.Start ≤ n ∧ n < b.Stop)) := by
        rcases le_total last.Stop b.Stop with hle | hle
        · rw [max_eq_right hle]; omega
        · rw [max_eq_left hle]; omega
      rw [hm, or_assoc]

/-- Normalisation keeps the covered values. -/
theorem normalize_covers (l : List Interval) (n : Int) :
    Covers (normalize l) n ↔ Covers l n := by
  have hperm := List.perm_insertionSort Interval.le l
  have hsorted := List.sorted_insertionSort Interval.le l
  rw [← covers_perm hperm n]
  unfold normalize
  rcases hs : l.insertionSort Interval.le with _ | ⟨a, rest⟩
  · simp
  · rw [hs] at hsorted
    simp only []
    have hp := List.pairwise_cons.mp hsorted
    have hle : ∀ x y : Interval, Interval.le x y → x.Start ≤ y.Start := by
      intro x y hxy; unfold Interval.le at hxy; omega
    rw [coalesceFrom_covers n rest a (fun b hb => hle _ _ (hp.1 b hb))
      (hp.2.imp (fun {x y} hxy => hle x y hxy)), covers_cons]

/-- Membership, as a proposition. -/
theorem contains_iff (s : MysqlGTIDSet) (sid : UUID) (n : Int) :
    contains s sid n = true ↔ ∃ l, s sid = some l ∧ Covers l n := by
  unfold contains
  rcases hs : s sid with _ | l
  · simp
  · simp [Covers]

/-- A single interval is its own normal form. -/
theorem normalize_single (iv : Interval) : normalize [iv] = [iv] := by
  simp [normalize, coalesceFrom]

/-- What a set holds after `AddSet`. -/
theorem addSet_contains (s : MysqlGTIDSet) (set : UUIDSet) (sid : UUID) (n : Int) :
    contains (AddSet s set) sid n = true ↔
      (sid = set.SID ∧ Covers set.Intervals n) ∨ contains s sid n = true := by
  rw [contains_iff, contains_iff]
  unfold AddSet
  by_cases hsid : sid = set.SID
  · subst hsid
    simp only [if_true, true_and]
    rcases hs : s set.SID with _ | ivs
    · simp
    · simp only [Option.some.injEq, exists_eq_left']
      rw [normalize_covers, covers_append, or_comm]
  · simp [hsid]

/-- C6 (amended): for every GTID set, uuid `u` and gno `g` with `1 ≤ g < 2^63 - 1`, after
`UpdateGtidSet` the set holds `(u, n)` exactly when `n = g` or it held `(u, n)` before, and
membership for every other uuid is unchanged; nothing is removed. -/
theorem updateGtidSet_adds_gno (s : MysqlGTIDSet) (u : UUID) (g : Int)
    (hpos : 1 ≤ g) (hmax : g < 2 ^ 63 - 1) (sid : UUID) (n : Int) :
    contains (UpdateGtidSet s u g) sid n = true ↔
      (sid = u ∧ n = g) ∨ contains s sid n = true := by
  have hwrap : wrapInt64 (g + 1) = g + 1 :=
    wrapInt64_of_inInt64 ⟨by omega, by omega⟩
  unfold UpdateGtidSet
  rw [addSet_contains, hwrap]
  simp only [NewUUIDSet, normalize_single, Covers, List.mem_singleton, exists_eq_left]
  constructor
  · rintro (⟨h, h1, h2⟩ | h)
    · exact Or.inl ⟨h, by omega⟩
    · exact Or.inr h
  · rintro (⟨h, h1⟩ | h)
    · exact Or.inl ⟨h, by omega, by omega⟩
    · exact Or.inr h

/-- C6 (witness): adding gno 5 to a set holding `7:1-4` and `7:6`. -/
theorem updateGtidSet_adds_gno_witness :
    contains (UpdateGtidSet sampleSet 7 5) 7 5 = true ↔
      (7 = 7 ∧ (5 : Int) = 5) ∨ contains sampleSet 7 5 = true :=
  updateGtidSet_adds_gno sampleSet 7 5 (by decide) (by decide) 7 5

/-- C6 (counterexample): at `g = 2^63 - 1` the `int64` sum `txGno + 1` wraps to `-2^63`,
the interval added is `[2^63 - 1, -2^63)`, which holds nothing, and the set does not hold
`(u, g)` afterwards. -/
theorem updateGtidSet_max_gno_lost :
    (1 : Int) ≤ 2 ^ 63 - 1
      ∧ contains (UpdateGtidSet emptySet 7 (2 ^ 63 - 1)) 7 (2 ^ 63 - 1) = false := by
  decide

end Common

end Dtle
